import Mathlib

/-!
Shallow embedding of the LinkVault bookmark manager (src/src/App.jsx).

The application keeps a single list of bookmark records in React state.
We embed the record type, the save/delete handlers, the derived view
pipeline (category filter, search filter, sort), the import handler and
the metadata-enrichment routine as pure Lean functions, and prove the
specification's claims about them.
-/

namespace LinkVault

/-- JavaScript `String.prototype.toLowerCase`, modelled as mapping
`Char.toLower` over the characters of the string. -/
def toLowerStr (s : String) : String :=
  ⟨s.data.map Char.toLower⟩

/-- JavaScript `hay.includes(needle)`: substring test. -/
def strIncludes (hay needle : String) : Bool :=
  decide (needle.data <:+: hay.data)

/-- A bookmark record as produced by `handleSave` in App.jsx.
`description`, `image` and `favicon` may be absent (`none`); JavaScript's
empty string is represented as `some ""` for `description`. -/
structure Bookmark where
  id : String
  url : String
  title : String
  description : Option String
  category : String
  tags : List String
  notes : String
  image : Option String
  favicon : Option String
  isFavorite : Bool
  createdAt : Nat
deriving DecidableEq, Inhabited

/-- The form draft (`formData` state in App.jsx): `url`, `title`,
`description`, `category`, `tags` (a single comma-separated string) and
`notes` are strings; `image`/`favicon` are set by enrichment or absent. -/
structure FormData where
  url : String
  title : String
  description : String
  category : String
  tags : String
  notes : String
  image : Option String
  favicon : Option String
deriving DecidableEq, Inhabited

/-- JavaScript `String.prototype.trim`, modelled at the character level:
drop whitespace from both ends. -/
def trimStr (s : String) : String :=
  ⟨(((s.data.dropWhile Char.isWhitespace).reverse.dropWhile Char.isWhitespace).reverse)⟩

/-- `formData.tags.split(',').map(t => t.trim()).filter(Boolean)` from
`handleSave`: split on commas, trim each entry, drop empties. -/
def splitTags (s : String) : List String :=
  ((s.splitOn ",").map trimStr).filter (fun t => t ≠ "")

/-- The duplicate test `b.id !== editingId` from App.jsx: when
`editingId` is `null` every record counts as a different record. -/
def idDiffers (b : Bookmark) (editingId : Option String) : Bool :=
  match editingId with
  | none => true
  | some e => b.id != e

/-- Outcome of `handleSave`: early return on empty URL, early return with
`urlError` on a duplicate URL, a thrown `TypeError` when editing an id
that is not in the collection (the code dereferences
`bookmarks.find(b => b.id === editingId).createdAt`), or a committed save
carrying the new collection and the saved record. -/
inductive SaveResult where
  | rejectedEmpty
  | rejectedDuplicate
  | crashed
  | saved (coll : List Bookmark) (b : Bookmark)
deriving DecidableEq

/-- `handleSave` from App.jsx.  `nowId`/`nowTime` stand for the values of
`Date.now().toString()` and `Date.now()` at the moment of the save.
JavaScript branches on the TRUTHINESS of `editingId` in
`editingId || Date.now().toString()`, `editingId ? ... : ...` and
`if (editingId)`: the empty string is falsy, so a save with
`editingId = ""` (a record with an empty id is importable, and editing it
sets `editingId` to `""`) takes the create path — generated id,
`createdAt = now`, `isFavorite = false`, prepend — not the replace-by-id
edit path.  The duplicate check, by contrast, uses strict inequality
`b.id !== editingId` and is unaffected by truthiness. -/
def handleSave (bookmarks : List Bookmark) (editingId : Option String)
    (fd : FormData) (nowId : String) (nowTime : Nat) : SaveResult :=
  if fd.url = "" then .rejectedEmpty
  else if bookmarks.any (fun b => b.url == fd.url && idDiffers b editingId) then
    .rejectedDuplicate
  else
    let tagsArray := splitTags fd.tags
    match editingId with
    | some e =>
      if e = "" then
        let nb : Bookmark :=
          { id := nowId, url := fd.url, title := fd.title,
            description := some fd.description, category := fd.category,
            tags := tagsArray, notes := fd.notes, image := fd.image,
            favicon := fd.favicon, isFavorite := false,
            createdAt := nowTime }
        .saved (nb :: bookmarks) nb
      else
        match bookmarks.find? (fun b => b.id == e) with
        | none => .crashed
        | some old =>
          let nb : Bookmark :=
            { id := e, url := fd.url, title := fd.title,
              description := some fd.description, category := fd.category,
              tags := tagsArray, notes := fd.notes, image := fd.image,
              favicon := fd.favicon, isFavorite := old.isFavorite,
              createdAt := old.createdAt }
          .saved (bookmarks.map (fun b => if b.id == e then nb else b)) nb
    | none =>
      let nb : Bookmark :=
        { id := nowId, url := fd.url, title := fd.title,
          description := some fd.description, category := fd.category,
          tags := tagsArray, notes := fd.notes, image := fd.image,
          favicon := fd.favicon, isFavorite := false,
          createdAt := nowTime }
      .saved (nb :: bookmarks) nb

/-- The collection after a `handleSave` call: unchanged unless the save
committed (rejected and crashed paths never reach `setBookmarks`). -/
def collAfter (bookmarks : List Bookmark) (r : SaveResult) : List Bookmark :=
  match r with
  | .saved coll _ => coll
  | _ => bookmarks

/-- `handleDelete` from App.jsx after the user confirms:
`setBookmarks(prev => prev.filter(b => b.id !== id))`. -/
def handleDelete (bookmarks : List Bookmark) (id : String) : List Bookmark :=
  bookmarks.filter (fun b => b.id != id)

/-- `toggleFavorite` from App.jsx. -/
def toggleFavorite (bookmarks : List Bookmark) (id : String) : List Bookmark :=
  bookmarks.map (fun b => if b.id == id then { b with isFavorite := !b.isFavorite } else b)

/-! ## Derived view pipeline (`filteredBookmarks` in App.jsx) -/

/-- Stage 1 of `filteredBookmarks`: the category filter. -/
def categoryFilter (activeCategory : String) (l : List Bookmark) : List Bookmark :=
  if activeCategory = "Favorites" then l.filter (fun b => b.isFavorite)
  else if activeCategory ≠ "All" then l.filter (fun b => b.category == activeCategory)
  else l

/-- The per-record search predicate from stage 2 of `filteredBookmarks`,
with `q` the lowercased query.  The `d ≠ ""` conjunct renders the JavaScript
truthiness guard `b.description && ...` where the description is the empty
string. -/
def matchesQuery (q : String) (b : Bookmark) : Bool :=
  strIncludes (toLowerStr b.title) q ||
  strIncludes (toLowerStr b.url) q ||
  b.tags.any (fun t => strIncludes (toLowerStr t) q) ||
  (match b.description with
   | none => false
   | some d => d != "" && strIncludes (toLowerStr d) q)

/-- Stage 2 of `filteredBookmarks`: the search filter.  The guard is the
truthiness of `searchQuery.trim()`; the query used for matching is the
lowercased, untrimmed `searchQuery`. -/
def searchFilter (searchQuery : String) (l : List Bookmark) : List Bookmark :=
  if trimStr searchQuery ≠ "" then l.filter (matchesQuery (toLowerStr searchQuery))
  else l

/-- The comparator passed to `result.sort` in `filteredBookmarks`, as the
"keep `a` before `b`" relation of a stable sort (`comparator(a,b) <= 0`).
`localeCompare` is modelled as code-point order on titles.  For an
unrecognized option the comparator returns `0`, i.e. the relation is
constantly true. -/
def sortLe (sortOption : String) (a b : Bookmark) : Bool :=
  if sortOption = "date-desc" then b.createdAt ≤ a.createdAt
  else if sortOption = "date-asc" then a.createdAt ≤ b.createdAt
  else if sortOption = "alpha" then a.title ≤ b.title
  else true

/-- Stage 3 of `filteredBookmarks`: the stable sort. -/
def sortBookmarks (sortOption : String) (l : List Bookmark) : List Bookmark :=
  l.mergeSort (sortLe sortOption)

/-- The whole derived view pipeline `filteredBookmarks` from App.jsx. -/
def filteredBookmarks (bookmarks : List Bookmark) (activeCategory searchQuery sortOption : String) :
    List Bookmark :=
  sortBookmarks sortOption (searchFilter searchQuery (categoryFilter activeCategory bookmarks))

/-- The pieces of React state that `filteredBookmarks` reads. -/
structure AppState where
  bookmarks : List Bookmark
  activeCategory : String
  searchQuery : String
  sortOption : String
deriving DecidableEq

/-- Evaluating the `useMemo` that computes `filteredBookmarks`: it returns
the derived list and performs no state update (the second component is the
state after evaluation). -/
def viewPipeline (s : AppState) : List Bookmark × AppState :=
  (filteredBookmarks s.bookmarks s.activeCategory s.searchQuery s.sortOption, s)

/-! ## Import (`importData` in App.jsx) -/

/-- A JSON value, as produced by `JSON.parse`. -/
inductive Json where
  | null
  | bool (b : Bool)
  | num (n : Int)
  | str (s : String)
  | arr (xs : List Json)
  | obj (fields : List (String × Json))

/-- The alert shown by `importData`. -/
inductive ImportAlert where
  | importSuccess
  | invalidFileFormat
  | parseErrorAlert
deriving DecidableEq

/-- `importData` from App.jsx, applied to the outcome of `JSON.parse` on
the uploaded file's text and to the prior collection (kept at the JSON
level, since the imported array's elements are stored as-is, without any
shape validation).  Returns the resulting collection and the alert. -/
def importData (parsed : Except String Json) (prior : List Json) :
    List Json × ImportAlert :=
  match parsed with
  | .error _ => (prior, .parseErrorAlert)
  | .ok j =>
    match j with
    | .arr xs => (xs, .importSuccess)
    | _ => (prior, .invalidFileFormat)

/-- Modelled from the spec: the "minimal Bookmark shape" of §4.3 — an
object with `url` and `id` keys resolvable.  App.jsx contains no such
check; this definition only states claim C5 for comparison. -/
def minimalBookmarkShape : Json → Bool
  | .obj fields => fields.any (fun f => f.1 == "url") && fields.any (fun f => f.1 == "id")
  | _ => false

/-! ## Metadata enrichment (`fetchMetadata` in App.jsx) -/

/-- Truthiness of an optional string field of the Microlink response. -/
def otruthy : Option String → Bool
  | some s => s != ""
  | none => false

/-- Character-list version of "the first list begins with the second". -/
def listBeginsWith : List Char → List Char → Bool
  | _, [] => true
  | [], _ :: _ => false
  | c :: cs, p :: ps => c == p && listBeginsWith cs ps

/-- The test `/^https?:\/\//i.test(url)`: a case-insensitive check for an
`http://` or `https://` prefix. -/
def hasHttpScheme (s : String) : Bool :=
  listBeginsWith (toLowerStr s).data "http://".data ||
  listBeginsWith (toLowerStr s).data "https://".data

/-- The `validUrl` normalization in `fetchMetadata`: prepend `https://`
when the scheme is missing. -/
def normalizeUrl (s : String) : String :=
  if hasHttpScheme s then s else "https://" ++ s

/-- The fallback favicon URL template used by `fetchMetadata`. -/
def faviconTemplate (validUrl : String) : String :=
  "https://www.google.com/s2/favicons?domain=" ++ validUrl ++ "&sz=64"

/-- Outcome of the Microlink lookup as observed by `fetchMetadata`:
either a response with `status === 'success'` carrying the optional
`title`, `description`, `image.url` and `logo.url` fields, or any failure
(network error, malformed payload, or a non-success status, all of which
reach the `catch` block). -/
inductive LookupResult where
  | success (title description imageUrl logoUrl : Option String)
  | failure
deriving DecidableEq

/-- Outcome of `fetchMetadata`: early return on an empty URL; early return
setting `urlError` on a duplicate; `updated` with the new form draft on
the success path; `degraded` with the fallback draft when the lookup
failed but the normalized URL parses (the `catch` block's recovery, with
`console.error` as its non-fatal signal); `invalidUrl` when even the
normalized URL does not parse (`fetchError` is set and the draft is left
unchanged). -/
inductive FetchOutcome where
  | noop
  | duplicateStop
  | updated (fd : FormData)
  | degraded (fd : FormData)
  | invalidUrl
deriving DecidableEq

/-- `fetchMetadata` from App.jsx.  `parseHost` stands for the platform's
WHATWG `new URL(u).hostname`, returning `none` when the constructor
throws; `lookup` stands for the observed network interaction.  On the
success path, when both the response title and the draft title are falsy
the code evaluates `new URL(validUrl).hostname`; if that throws, control
reaches the `catch` block whose own `new URL` throws again, ending at
`setFetchError` — hence `invalidUrl` in that branch too. -/
def fetchMetadata (bookmarks : List Bookmark) (editingId : Option String)
    (prev : FormData) (url : String) (lookup : LookupResult)
    (parseHost : String → Option String) : FetchOutcome :=
  if url = "" then .noop
  else if bookmarks.any (fun b => b.url == url && idDiffers b editingId) then
    .duplicateStop
  else
    let validUrl := normalizeUrl url
    match lookup with
    | .success title description imageUrl logoUrl =>
      let titleOpt : Option String :=
        if otruthy title then title
        else if prev.title != "" then some prev.title
        else parseHost validUrl
      match titleOpt with
      | none => .invalidUrl
      | some ttl =>
        .updated { prev with
          url := validUrl,
          title := ttl,
          description := if otruthy description then description.getD "" else prev.description,
          image := if otruthy imageUrl then imageUrl else none,
          favicon := if otruthy logoUrl then logoUrl else some (faviconTemplate validUrl) }
    | .failure =>
      match parseHost validUrl with
      | some hostname =>
        .degraded { prev with
          url := validUrl,
          title := if prev.title != "" then prev.title else hostname,
          favicon := some (faviconTemplate validUrl) }
      | none => .invalidUrl

/-! ## Operation sequences over the collection (for claim C1) -/

/-- One user-level mutation of the collection: a create-save
(`handleSave` with `editingId = null`), an edit-save (`handleSave` with
`editingId` set), or a confirmed delete.  Both save forms carry the
`Date.now()` values `nowId`/`nowTime`, since an edit-save with the falsy
id `""` also consumes them on its create path. -/
inductive Op where
  | add (fd : FormData) (nowId : String) (nowTime : Nat)
  | update (id : String) (fd : FormData) (nowId : String) (nowTime : Nat)
  | remove (id : String)

/-- Apply one operation to the collection; rejected saves leave it
unchanged. -/
def applyOp (l : List Bookmark) : Op → List Bookmark
  | .add fd nowId nowTime => collAfter l (handleSave l none fd nowId nowTime)
  | .update e fd nowId nowTime => collAfter l (handleSave l (some e) fd nowId nowTime)
  | .remove id => handleDelete l id

/-- The collection invariant of §3: ids pairwise distinct and urls
pairwise distinct. -/
def GoodColl (l : List Bookmark) : Prop :=
  (l.map (fun b => b.id)).Nodup ∧ (l.map (fun b => b.url)).Nodup

instance (l : List Bookmark) : Decidable (GoodColl l) := by
  unfold GoodColl; infer_instance

/-- The premises under which one operation preserves uniqueness: an add's
generated id must not already be in the collection (the spec's "assigns a
fresh unique id"), and an edit-save must target a nonempty id — with the
falsy `editingId = ""` the program takes the create path instead, which
can duplicate a url (see the C1 counterexample). -/
def opOk (l : List Bookmark) : Op → Bool
  | .add _ nowId _ => !(l.any (fun b => b.id == nowId))
  | .update e _ _ _ => e != ""
  | .remove _ => true

/-- The premises along a whole run of operations. -/
def OpsOk : List Bookmark → List Op → Bool
  | _, [] => true
  | l, op :: ops => opOk l op && OpsOk (applyOp l op) ops

/-! ## Theorems -/

/-- C4: if the imported text does not parse as JSON, or its top-level
parsed value is not an array, `importData` leaves the collection exactly
as it was and surfaces a user-visible alert that is not the success
alert; no partial application occurs. -/
theorem c4_import_failure_leaves_collection_untouched
    (parsed : Except String Json) (prior : List Json)
    (h : ∀ xs : List Json, parsed ≠ .ok (.arr xs)) :
    (importData parsed prior).1 = prior ∧
      ((importData parsed prior).2 = .invalidFileFormat ∨
       (importData parsed prior).2 = .parseErrorAlert) := by
  match parsed with
  | .error e => exact ⟨rfl, Or.inr rfl⟩
  | .ok j =>
    match j with
    | .arr xs => exact absurd rfl (h xs)
    | .null => exact ⟨rfl, Or.inl rfl⟩
    | .bool b => exact ⟨rfl, Or.inl rfl⟩
    | .num n => exact ⟨rfl, Or.inl rfl⟩
    | .str s => exact ⟨rfl, Or.inl rfl⟩
    | .obj fields => exact ⟨rfl, Or.inl rfl⟩

/-- Witness for C4, on the spec's own example: importing the parse of
`{"a":1}` into a 3-record collection keeps exactly those 3 records and
surfaces a non-success alert. -/
theorem c4_witness :
    (importData (.ok (.obj [("a", .num 1)]))
        [.obj [("id", .str "1")], .obj [("id", .str "2")], .obj [("id", .str "3")]]).1 =
      [.obj [("id", .str "1")], .obj [("id", .str "2")], .obj [("id", .str "3")]] ∧
      ((importData (.ok (.obj [("a", .num 1)]))
          [.obj [("id", .str "1")], .obj [("id", .str "2")], .obj [("id", .str "3")]]).2 =
        .invalidFileFormat ∨
       (importData (.ok (.obj [("a", .num 1)]))
          [.obj [("id", .str "1")], .obj [("id", .str "2")], .obj [("id", .str "3")]]).2 =
        .parseErrorAlert) :=
  c4_import_failure_leaves_collection_untouched _ _ (fun _ hx => nomatch hx)

/-- C5 counterexample: the import path accepts the array `[1]`, whose
element resolves neither `url` nor `id`, replacing the prior collection
with it and reporting success — it does not fail with the invalid-format
alert as the claim requires. -/
theorem c5_counterexample :
    (importData (.ok (.arr [.num 1]))
        [.obj [("url", .str "https://a.com"), ("id", .str "1")]]) =
      ([.num 1], .importSuccess) ∧
    minimalBookmarkShape (.num 1) = false :=
  ⟨rfl, rfl⟩

/-- C5 (amended): the import path fails with the invalid-format alert
exactly when the parsed value is not an array; element shapes are never
validated, and on success the prior collection is discarded entirely in
favour of the given array. -/
theorem c5_replaceAll_checks_only_array (j : Json) (prior : List Json) :
    ((importData (.ok j) prior).2 = .invalidFileFormat ↔ ∀ xs : List Json, j ≠ .arr xs) ∧
    (∀ xs : List Json, j = .arr xs → importData (.ok j) prior = (xs, .importSuccess)) := by
  match j with
  | .arr xs =>
    refine ⟨⟨fun h => (nomatch h), fun h => absurd rfl (h xs)⟩, ?_⟩
    intro ys hy
    cases hy
    rfl
  | .null => exact ⟨⟨fun _ xs hx => (nomatch hx), fun _ => rfl⟩, fun ys hy => nomatch hy⟩
  | .bool b => exact ⟨⟨fun _ xs hx => (nomatch hx), fun _ => rfl⟩, fun ys hy => nomatch hy⟩
  | .num n => exact ⟨⟨fun _ xs hx => (nomatch hx), fun _ => rfl⟩, fun ys hy => nomatch hy⟩
  | .str s => exact ⟨⟨fun _ xs hx => (nomatch hx), fun _ => rfl⟩, fun ys hy => nomatch hy⟩
  | .obj fields => exact ⟨⟨fun _ xs hx => (nomatch hx), fun _ => rfl⟩, fun ys hy => nomatch hy⟩

/-- Witness for C5 (amended): importing the array `[1]` over a one-object
collection commits the array wholesale and reports success. -/
theorem c5_witness :
    importData (.ok (.arr [.num 1])) [.obj [("id", .str "9")]] = ([.num 1], .importSuccess) :=
  (c5_replaceAll_checks_only_array (.arr [.num 1]) [.obj [("id", .str "9")]]).2 [.num 1] rfl

/-- C8: the derived view pipeline is pure — evaluating it performs no
state update (the state after evaluation is the input state, so the
source collection is never mutated), and two runs on identical inputs
(collection snapshot, active category, search query, sort option)
produce identical ordered output. -/
theorem c8_view_pipeline_pure (s s' : AppState)
    (hb : s.bookmarks = s'.bookmarks) (hc : s.activeCategory = s'.activeCategory)
    (hq : s.searchQuery = s'.searchQuery) (ho : s.sortOption = s'.sortOption) :
    (viewPipeline s).2 = s ∧ (viewPipeline s).1 = (viewPipeline s').1 := by
  refine ⟨rfl, ?_⟩
  simp only [viewPipeline, hb, hc, hq, ho]

/-- Witness for C8 at a concrete state. -/
theorem c8_witness :
    (viewPipeline ⟨[], "All", "", "date-desc"⟩).2 = (⟨[], "All", "", "date-desc"⟩ : AppState) ∧
    (viewPipeline ⟨[], "All", "", "date-desc"⟩).1 = (viewPipeline ⟨[], "All", "", "date-desc"⟩).1 :=
  c8_view_pipeline_pure _ _ rfl rfl rfl rfl

/-- The duplicate test of `handleSave` with `editingId = null` fires
exactly when some record already has the draft's URL. -/
lemma any_dup_none (l : List Bookmark) (fd : FormData) :
    (l.any (fun b => b.url == fd.url && idDiffers b none) = true) ↔
      ∃ b ∈ l, b.url = fd.url := by
  simp [idDiffers]

/-- The duplicate test of `handleSave` with `editingId` set fires exactly
when a record with a different id has the draft's URL. -/
lemma any_dup_some (l : List Bookmark) (fd : FormData) (e : String) :
    (l.any (fun b => b.url == fd.url && idDiffers b (some e)) = true) ↔
      ∃ b ∈ l, b.url = fd.url ∧ b.id ≠ e := by
  simp [idDiffers]

/-- C2 counterexample: the collection stores `https://a b`; the create
draft's raw url `a b` equals it after normalization, yet the save is
accepted — `handleSave` compares urls verbatim and performs no
normalization (raw urls reach it in edit mode, which never auto-enriches,
and on the invalid-URL create path, where only `urlError` disables the
save button).  So "fails exactly when some existing record's url equals
the draft's normalized url" is false. -/
theorem c2_counterexample :
    normalizeUrl "a b" = "https://a b" ∧
    (∃ b ∈ [(⟨"1", "https://a b", "A", none, "Dev", [], "", none, none, false, 100⟩ : Bookmark)],
        b.url = normalizeUrl "a b") ∧
    handleSave [⟨"1", "https://a b", "A", none, "Dev", [], "", none, none, false, 100⟩]
        none ⟨"a b", "T", "", "Dev", "", "", none, none⟩ "9" 5 ≠ .rejectedDuplicate := by
  decide

/-- C2 (amended): `handleSave` compares the draft url verbatim: in create
mode it fails with the duplicate-URL error exactly when some existing
record's `url` equals the draft's `url` as given (no normalization is
applied at save time); in edit mode it fails exactly when a record with a
*different* id has that `url`; and an edit whose URL collides only with
the record being edited itself is accepted and commits. -/
theorem c2_duplicate_url_exactness (l : List Bookmark) (fd : FormData)
    (nowId : String) (nowTime : Nat) (hurl : fd.url ≠ "") :
    (handleSave l none fd nowId nowTime = .rejectedDuplicate ↔
        ∃ b ∈ l, b.url = fd.url) ∧
    (∀ e, handleSave l (some e) fd nowId nowTime = .rejectedDuplicate ↔
        ∃ b ∈ l, b.url = fd.url ∧ b.id ≠ e) ∧
    (∀ e old, old ∈ l → old.id = e → old.url = fd.url →
        (∀ b ∈ l, b.url = fd.url → b.id = e) →
        ∃ l' nb, handleSave l (some e) fd nowId nowTime = .saved l' nb) := by
  refine ⟨?_, ?_, ?_⟩
  · by_cases hany : l.any (fun b => b.url == fd.url && idDiffers b none) = true
    · rw [← any_dup_none l fd]
      simp [handleSave, hurl, hany]
    · rw [Bool.not_eq_true] at hany
      rw [← any_dup_none l fd]
      simp [handleSave, hurl, hany]
  · intro e
    by_cases hany : l.any (fun b => b.url == fd.url && idDiffers b (some e)) = true
    · rw [← any_dup_some l fd e]
      simp [handleSave, hurl, hany]
    · rw [Bool.not_eq_true] at hany
      rw [← any_dup_some l fd e]
      by_cases he : e = ""
      · simp [handleSave, hurl, hany, he]
      · cases hfind : l.find? (fun b => b.id == e) with
        | none => simp [handleSave, hurl, hany, he, hfind]
        | some old => simp [handleSave, hurl, hany, he, hfind]
  · intro e old hmem hid hurlold honly
    have hany : l.any (fun b => b.url == fd.url && idDiffers b (some e)) = false := by
      rw [List.any_eq_false]
      intro b hb
      simp only [idDiffers, Bool.and_eq_true, beq_iff_eq, bne_iff_ne, not_and]
      intro hbu
      simp [honly b hb hbu]
    by_cases he : e = ""
    · refine ⟨({ id := nowId, url := fd.url, title := fd.title,
                 description := some fd.description, category := fd.category,
                 tags := splitTags fd.tags, notes := fd.notes, image := fd.image,
                 favicon := fd.favicon, isFavorite := false,
                 createdAt := nowTime } : Bookmark) :: l,
        { id := nowId, url := fd.url, title := fd.title,
          description := some fd.description, category := fd.category,
          tags := splitTags fd.tags, notes := fd.notes, image := fd.image,
          favicon := fd.favicon, isFavorite := false,
          createdAt := nowTime }, ?_⟩
      subst he
      simp [handleSave, hurl, hany]
    · have hfind : (l.find? (fun b => b.id == e)).isSome := by
        rw [List.find?_isSome]
        exact ⟨old, hmem, by simp [hid]⟩
      obtain ⟨old', hfind'⟩ := Option.isSome_iff_exists.mp hfind
      refine ⟨l.map (fun b => if b.id == e then
          ({ id := e, url := fd.url, title := fd.title, description := some fd.description,
             category := fd.category, tags := splitTags fd.tags, notes := fd.notes,
             image := fd.image, favicon := fd.favicon, isFavorite := old'.isFavorite,
             createdAt := old'.createdAt } : Bookmark) else b),
        { id := e, url := fd.url, title := fd.title, description := some fd.description,
          category := fd.category, tags := splitTags fd.tags, notes := fd.notes,
          image := fd.image, favicon := fd.favicon, isFavorite := old'.isFavorite,
          createdAt := old'.createdAt }, ?_⟩
      simp [handleSave, hurl, hany, he, hfind']

/-- Witness for C2 (amended): a collection holding `https://a.com`; a
create draft with the same URL is reported duplicate, a different-id edit
draft is reported duplicate, and the self-edit commits. -/
theorem c2_witness :
    (handleSave [⟨"1", "https://a.com", "A", none, "Dev", [], "", none, none, false, 100⟩]
        none ⟨"https://a.com", "T", "", "Dev", "", "", none, none⟩ "9" 5 = .rejectedDuplicate ↔
      ∃ b ∈ [(⟨"1", "https://a.com", "A", none, "Dev", [], "", none, none, false, 100⟩ : Bookmark)],
        b.url = "https://a.com") ∧
    (∀ e, handleSave [⟨"1", "https://a.com", "A", none, "Dev", [], "", none, none, false, 100⟩]
        (some e) ⟨"https://a.com", "T", "", "Dev", "", "", none, none⟩ "9" 5 = .rejectedDuplicate ↔
      ∃ b ∈ [(⟨"1", "https://a.com", "A", none, "Dev", [], "", none, none, false, 100⟩ : Bookmark)],
        b.url = "https://a.com" ∧ b.id ≠ e) ∧
    (∀ e old,
        old ∈ [(⟨"1", "https://a.com", "A", none, "Dev", [], "", none, none, false, 100⟩ : Bookmark)] →
        old.id = e → old.url = "https://a.com" →
        (∀ b ∈ [(⟨"1", "https://a.com", "A", none, "Dev", [], "", none, none, false, 100⟩ : Bookmark)],
          b.url = "https://a.com" → b.id = e) →
        ∃ l' nb,
          handleSave [⟨"1", "https://a.com", "A", none, "Dev", [], "", none, none, false, 100⟩]
            (some e) ⟨"https://a.com", "T", "", "Dev", "", "", none, none⟩ "9" 5 = .saved l' nb) :=
  c2_duplicate_url_exactness _ _ "9" 5 (by decide)

/-- Every list is pairwise related by a relation that always holds. -/
lemma pairwise_of_total {α : Type} {r : α → α → Prop} (h : ∀ a b, r a b) :
    ∀ l : List α, l.Pairwise r
  | [] => .nil
  | a :: t => .cons (fun b _ => h a b) (pairwise_of_total h t)

/-- For an option outside the recognized set the sort comparator returns
`0`, i.e. the stable sort's keep-order relation always holds. -/
lemma sortLe_unrecognized {opt : String} (h1 : opt ≠ "date-desc")
    (h2 : opt ≠ "date-asc") (h3 : opt ≠ "alpha") (a b : Bookmark) :
    sortLe opt a b = true := by
  simp [sortLe, h1, h2, h3]

/-- C10: an accepted create-save prepends the new record (the new
collection is the new record, carrying the generated id and `createdAt`,
followed by the old records in order), and the stored order is what an
unrecognized sort option displays, since that sort is the identity. -/
theorem c10_add_prepends_new_record (l : List Bookmark) (fd : FormData)
    (nowId : String) (nowTime : Nat) (opt : String)
    (hurl : fd.url ≠ "") (hdup : ∀ b ∈ l, b.url ≠ fd.url)
    (h1 : opt ≠ "date-desc") (h2 : opt ≠ "date-asc") (h3 : opt ≠ "alpha") :
    ∃ nb, handleSave l none fd nowId nowTime = .saved (nb :: l) nb ∧
      nb.id = nowId ∧ nb.createdAt = nowTime ∧
      sortBookmarks opt (nb :: l) = nb :: l := by
  have hany : l.any (fun b => b.url == fd.url && idDiffers b none) = false := by
    rw [List.any_eq_false]
    intro b hb
    simp only [idDiffers, Bool.and_eq_true, beq_iff_eq, not_and]
    intro hbu
    exact absurd hbu (hdup b hb)
  refine ⟨{ id := nowId, url := fd.url, title := fd.title,
            description := some fd.description, category := fd.category,
            tags := splitTags fd.tags, notes := fd.notes, image := fd.image,
            favicon := fd.favicon, isFavorite := false, createdAt := nowTime },
          ?_, rfl, rfl, ?_⟩
  · simp [handleSave, hurl, hany]
  · exact List.mergeSort_of_sorted
      (pairwise_of_total (fun a b => sortLe_unrecognized h1 h2 h3 a b) _)

/-- Witness for C10: adding `https://b.com` to a collection holding only
`https://a.com` puts the new record first, and the unrecognized sort
option `"x"` keeps that order. -/
theorem c10_witness :
    ∃ nb, handleSave [⟨"1", "https://a.com", "A", none, "Dev", [], "", none, none, false, 100⟩]
        none ⟨"https://b.com", "B", "", "Dev", "", "", none, none⟩ "7" 200 =
        .saved (nb :: [⟨"1", "https://a.com", "A", none, "Dev", [], "", none, none, false, 100⟩]) nb ∧
      nb.id = "7" ∧ nb.createdAt = 200 ∧
      sortBookmarks "x" (nb :: [⟨"1", "https://a.com", "A", none, "Dev", [], "", none, none, false, 100⟩]) =
        nb :: [⟨"1", "https://a.com", "A", none, "Dev", [], "", none, none, false, 100⟩] :=
  c10_add_prepends_new_record _ _ "7" 200 "x" (by decide) (by decide)
    (by decide) (by decide) (by decide)

/-- Replacing the record with id `e` by a record whose id is `e` leaves
the list of ids unchanged. -/
lemma ids_after_replace (l : List Bookmark) (e : String) (nb : Bookmark)
    (hnbid : nb.id = e) :
    (l.map (fun b => if b.id == e then nb else b)).map (fun b => b.id) =
      l.map (fun b => b.id) := by
  rw [List.map_map]
  refine List.map_congr_left ?_
  intro b _
  by_cases hbe : b.id = e
  · simp [hbe, hnbid]
  · simp [hbe]

/-- Replacing the record with id `e` by a record whose url collides with
no other record keeps the urls pairwise distinct. -/
lemma nodup_urls_after_replace (l : List Bookmark) (e : String) (nb : Bookmark)
    (hid : (l.map (fun b => b.id)).Nodup) (hurl : (l.map (fun b => b.url)).Nodup)
    (hno : ∀ b ∈ l, b.url = nb.url → b.id = e) :
    ((l.map (fun b => if b.id == e then nb else b)).map (fun b => b.url)).Nodup := by
  rw [List.map_map]
  show (l.map fun b => ((if b.id == e then nb else b).url)).Pairwise (· ≠ ·)
  rw [List.pairwise_map]
  have hid' : l.Pairwise (fun a b => a.id ≠ b.id) := by
    have := hid
    rw [show (l.map (fun b => b.id)).Nodup =
        (l.map (fun b => b.id)).Pairwise (· ≠ ·) from rfl, List.pairwise_map] at this
    exact this
  have hurl' : l.Pairwise (fun a b => a.url ≠ b.url) := by
    have := hurl
    rw [show (l.map (fun b => b.url)).Nodup =
        (l.map (fun b => b.url)).Pairwise (· ≠ ·) from rfl, List.pairwise_map] at this
    exact this
  have hand := hid'.and hurl'
  refine hand.imp_of_mem ?_
  intro a b ha hb hab
  by_cases hae : (a.id == e) = true <;> by_cases hbe : (b.id == e) = true
  · exact absurd ((beq_iff_eq.mp hae).trans (beq_iff_eq.mp hbe).symm) hab.1
  · rw [if_pos hae, if_neg hbe]
    intro hc
    exact hbe (beq_iff_eq.mpr (hno b hb hc.symm))
  · rw [if_neg hae, if_pos hbe]
    intro hc
    exact hae (beq_iff_eq.mpr (hno a ha hc))
  · rw [if_neg hae, if_neg hbe]
    exact hab.2

/-- One operation preserves the pairwise-distinct-ids-and-urls invariant,
provided an add's generated id is fresh and an edit-save targets a
nonempty id. -/
lemma goodColl_applyOp (l : List Bookmark) (op : Op)
    (h : GoodColl l) (hf : opOk l op = true) : GoodColl (applyOp l op) := by
  obtain ⟨hid, hurl⟩ := h
  cases op with
  | remove i =>
    exact ⟨List.Nodup.sublist (List.Sublist.map _ (List.filter_sublist l)) hid,
           List.Nodup.sublist (List.Sublist.map _ (List.filter_sublist l)) hurl⟩
  | add fd nowId nowTime =>
    simp only [applyOp]
    by_cases hurl0 : fd.url = ""
    · simp only [handleSave, hurl0, if_pos, collAfter]
      exact ⟨hid, hurl⟩
    by_cases hany : l.any (fun b => b.url == fd.url && idDiffers b none) = true
    · simp [handleSave, hurl0, hany, collAfter]
      exact ⟨hid, hurl⟩
    rw [Bool.not_eq_true] at hany
    have hfresh : ∀ b ∈ l, b.id ≠ nowId := by
      simp only [opOk, Bool.not_eq_true', List.any_eq_false] at hf
      intro b hb
      simpa using hf b hb
    have hnodup : ∀ b ∈ l, b.url ≠ fd.url := by
      intro b hb
      have := List.any_eq_false.mp hany b hb
      simpa [idDiffers] using this
    have hcoll : collAfter l (handleSave l none fd nowId nowTime) =
        ({ id := nowId, url := fd.url, title := fd.title,
           description := some fd.description, category := fd.category,
           tags := splitTags fd.tags, notes := fd.notes, image := fd.image,
           favicon := fd.favicon, isFavorite := false,
           createdAt := nowTime } : Bookmark) :: l := by
      simp [handleSave, hurl0, hany, collAfter]
    rw [hcoll]
    constructor
    · simp only [List.map_cons]
      refine List.nodup_cons.mpr ⟨?_, hid⟩
      rw [List.mem_map]
      rintro ⟨b, hb, hbid⟩
      exact hfresh b hb hbid
    · simp only [List.map_cons]
      refine List.nodup_cons.mpr ⟨?_, hurl⟩
      rw [List.mem_map]
      rintro ⟨b, hb, hbu⟩
      exact hnodup b hb hbu
  | update e fd nowId nowTime =>
    have he : e ≠ "" := by
      simp only [opOk, bne_iff_ne, ne_eq] at hf
      exact hf
    simp only [applyOp]
    by_cases hurl0 : fd.url = ""
    · simp only [handleSave, hurl0, if_pos, collAfter]
      exact ⟨hid, hurl⟩
    by_cases hany : l.any (fun b => b.url == fd.url && idDiffers b (some e)) = true
    · simp [handleSave, hurl0, hany, collAfter]
      exact ⟨hid, hurl⟩
    rw [Bool.not_eq_true] at hany
    cases hfind : l.find? (fun b => b.id == e) with
    | none =>
      simp [handleSave, hurl0, hany, he, hfind, collAfter]
      exact ⟨hid, hurl⟩
    | some old =>
      have hcoll : collAfter l (handleSave l (some e) fd nowId nowTime) =
          l.map (fun b => if b.id == e then
            ({ id := e, url := fd.url, title := fd.title,
               description := some fd.description, category := fd.category,
               tags := splitTags fd.tags, notes := fd.notes, image := fd.image,
               favicon := fd.favicon, isFavorite := old.isFavorite,
               createdAt := old.createdAt } : Bookmark) else b) := by
        simp [handleSave, hurl0, hany, he, hfind, collAfter]
      rw [hcoll]
      have hno : ∀ b ∈ l, b.url = fd.url → b.id = e := by
        rw [List.any_eq_false] at hany
        intro b hb hbu
        have := hany b hb
        simp only [idDiffers, Bool.and_eq_true, beq_iff_eq, bne_iff_ne, not_and] at this
        by_contra hne
        exact this hbu hne
      constructor
      · rw [ids_after_replace l e _ rfl]
        exact hid
      · exact nodup_urls_after_replace l e _ hid hurl hno

/-- C1 counterexample: a collection holding one record with the
importable empty id and url `https://a.com` has pairwise-distinct ids and
urls, yet a single update operation targeting that id — re-saving the
same url — violates url uniqueness: the duplicate check passes (the
record itself is not a different id), but `editingId = ""` is falsy, so
the save takes the create path and PREPENDS a second record with the same
url instead of replacing in place. -/
theorem c1_counterexample :
    GoodColl [⟨"", "https://a.com", "A", none, "Dev", [], "", none, none, false, 100⟩] ∧
    ¬ GoodColl
      ([Op.update "" ⟨"https://a.com", "NEW", "", "Dev", "", "", none, none⟩ "99" 7].foldl
        applyOp
        [⟨"", "https://a.com", "A", none, "Dev", [], "", none, none, false, 100⟩]) := by
  constructor
  · decide
  · decide

/-- C1 (amended): every finite sequence of add, update and remove
operations, applied to a collection whose records have pairwise-distinct
ids and pairwise-distinct urls, yields a collection that again has
pairwise-distinct ids and pairwise-distinct urls — provided each add's
generated id is fresh (the spec's "assigns a fresh unique id") and each
update targets a nonempty id (an edit-save of an empty-id record takes
the create path and can duplicate a url). -/
theorem c1_id_url_uniqueness_invariant (l : List Bookmark) (ops : List Op)
    (h : GoodColl l) (hf : OpsOk l ops = true) :
    GoodColl (ops.foldl applyOp l) := by
  induction ops generalizing l with
  | nil => exact h
  | cons op ops ih =>
    rw [List.foldl_cons]
    simp only [OpsOk, Bool.and_eq_true] at hf
    exact ih _ (goodColl_applyOp l op h hf.1) hf.2

/-- Witness for C1 (amended): a concrete run — two adds, an edit of the
first record, and a delete of the second — starting from the empty
collection. -/
theorem c1_witness :
    GoodColl [] ∧
    OpsOk []
      [.add ⟨"https://a.com", "A", "", "Dev", "", "", none, none⟩ "10" 1,
       .add ⟨"https://b.com", "B", "", "Dev", "", "", none, none⟩ "11" 2,
       .update "10" ⟨"https://c.com", "C", "", "News", "x, y", "", none, none⟩ "12" 3,
       .remove "11"] = true ∧
    GoodColl
      ([.add ⟨"https://a.com", "A", "", "Dev", "", "", none, none⟩ "10" 1,
        .add ⟨"https://b.com", "B", "", "Dev", "", "", none, none⟩ "11" 2,
        .update "10" ⟨"https://c.com", "C", "", "News", "x, y", "", none, none⟩ "12" 3,
        .remove "11"].foldl applyOp []) :=
  ⟨by decide, by decide,
   c1_id_url_uniqueness_invariant [] _ (by decide) (by decide)⟩

/-- C3 counterexample: the collection holds records `"1"` (title `"A"`,
url `https://a.com`) and `"2"` (url `https://b.com`); updating record
`"1"` with a draft whose url is `https://b.com` and title is `"NEW"` is
rejected as a duplicate, so record `"1"` keeps title `"A"` — the draft's
fields are NOT installed, contradicting the claim's unconditional
"replaces all its other fields wholesale with the draft's values". -/
theorem c3_counterexample :
    "1" ∈ ([⟨"1", "https://a.com", "A", none, "Dev", [], "", none, none, false, 100⟩,
            ⟨"2", "https://b.com", "B", none, "Dev", [], "", none, none, false, 200⟩] :
        List Bookmark).map (fun b => b.id) ∧
    (⟨"https://b.com", "NEW", "", "Dev", "", "", none, none⟩ : FormData).title = "NEW" ∧
    (∀ b ∈ collAfter
        [⟨"1", "https://a.com", "A", none, "Dev", [], "", none, none, false, 100⟩,
         ⟨"2", "https://b.com", "B", none, "Dev", [], "", none, none, false, 200⟩]
        (handleSave
          [⟨"1", "https://a.com", "A", none, "Dev", [], "", none, none, false, 100⟩,
           ⟨"2", "https://b.com", "B", none, "Dev", [], "", none, none, false, 200⟩]
          (some "1") ⟨"https://b.com", "NEW", "", "Dev", "", "", none, none⟩ "9" 5),
      b.id = "1" → b.title ≠ "NEW") := by
  decide

/-- C3 (amended): for a NONEMPTY id present in the collection (with ids
pairwise distinct; a save with the falsy `editingId = ""` takes the
create path instead), an edit-save leaves every record with a different
id unchanged and never changes the edited record's `createdAt` or
`isFavorite`, for any draft; and when the edit is accepted (nonempty
draft url, no collision with a different record) it replaces all the
other fields wholesale with the draft's values. -/
theorem c3_update_preserves_frame (l : List Bookmark) (e : String) (old : Bookmark)
    (fd : FormData) (nowId : String) (nowTime : Nat)
    (he : e ≠ "")
    (hfind : l.find? (fun b => b.id == e) = some old)
    (hids : (l.map (fun b => b.id)).Nodup) :
    ∃ nb : Bookmark,
      collAfter l (handleSave l (some e) fd nowId nowTime) =
          l.map (fun b => if b.id == e then nb else b) ∧
      nb.id = e ∧ nb.createdAt = old.createdAt ∧ nb.isFavorite = old.isFavorite ∧
      (fd.url ≠ "" → (∀ b ∈ l, b.url = fd.url → b.id = e) →
        nb.url = fd.url ∧ nb.title = fd.title ∧ nb.description = some fd.description ∧
        nb.category = fd.category ∧ nb.tags = splitTags fd.tags ∧ nb.notes = fd.notes ∧
        nb.image = fd.image ∧ nb.favicon = fd.favicon) := by
  have hoem : old ∈ l := List.mem_of_find?_eq_some hfind
  have hoid : old.id = e := by
    have := List.find?_some hfind
    simpa using this
  have hself : l.map (fun b => if b.id == e then old else b) = l := by
    have : ∀ b ∈ l, (if b.id == e then old else b) = b := by
      intro b hb
      by_cases hbe : (b.id == e) = true
      · rw [if_pos hbe]
        exact List.inj_on_of_nodup_map hids hoem hb
          (by rw [hoid, beq_iff_eq.mp hbe])
      · rw [if_neg hbe]
    rw [List.map_congr_left this]
    simp
  by_cases hurl0 : fd.url = ""
  · refine ⟨old, ?_, hoid, rfl, rfl, fun hu _ => absurd hurl0 hu⟩
    rw [hself]
    simp [handleSave, hurl0, collAfter]
  by_cases hany : l.any (fun b => b.url == fd.url && idDiffers b (some e)) = true
  · refine ⟨old, ?_, hoid, rfl, rfl, fun _ honly => ?_⟩
    · rw [hself]
      simp [handleSave, hurl0, hany, collAfter]
    · exfalso
      obtain ⟨x, hx, hxc⟩ := List.any_eq_true.mp hany
      simp only [idDiffers, Bool.and_eq_true, beq_iff_eq, bne_iff_ne] at hxc
      exact hxc.2 (honly x hx hxc.1)
  · rw [Bool.not_eq_true] at hany
    refine ⟨{ id := e, url := fd.url, title := fd.title,
              description := some fd.description, category := fd.category,
              tags := splitTags fd.tags, notes := fd.notes, image := fd.image,
              favicon := fd.favicon, isFavorite := old.isFavorite,
              createdAt := old.createdAt }, ?_, rfl, rfl, rfl, fun _ _ =>
        ⟨rfl, rfl, rfl, rfl, rfl, rfl, rfl, rfl⟩⟩
    simp [handleSave, hurl0, hany, he, hfind, collAfter]

/-- Witness for C3 (amended): editing record `"1"` with a fresh url. -/
theorem c3_witness :
    ∃ nb : Bookmark,
      collAfter [⟨"1", "https://a.com", "A", none, "Dev", [], "", none, none, true, 100⟩]
          (handleSave [⟨"1", "https://a.com", "A", none, "Dev", [], "", none, none, true, 100⟩]
            (some "1") ⟨"https://c.com", "C", "", "News", "", "", none, none⟩ "9" 5) =
          [⟨"1", "https://a.com", "A", none, "Dev", [], "", none, none, true, 100⟩].map
            (fun b => if b.id == "1" then nb else b) ∧
      nb.id = "1" ∧ nb.createdAt = 100 ∧ nb.isFavorite = true ∧
      ((⟨"https://c.com", "C", "", "News", "", "", none, none⟩ : FormData).url ≠ "" →
        (∀ b ∈ [(⟨"1", "https://a.com", "A", none, "Dev", [], "", none, none, true, 100⟩ : Bookmark)],
          b.url = "https://c.com" → b.id = "1") →
        nb.url = "https://c.com" ∧ nb.title = "C" ∧ nb.description = some "" ∧
        nb.category = "News" ∧ nb.tags = splitTags "" ∧ nb.notes = "" ∧
        nb.image = none ∧ nb.favicon = none) :=
  c3_update_preserves_frame _ "1"
    ⟨"1", "https://a.com", "A", none, "Dev", [], "", none, none, true, 100⟩
    ⟨"https://c.com", "C", "", "News", "", "", none, none⟩ "9" 5 (by decide) (by decide)
    (by decide)

/-- A string whose character list is empty is the empty string. -/
lemma string_eq_empty_of_data {s : String} (h : s.data = []) : s = "" := by
  cases s with
  | mk d =>
    cases h
    rfl

/-- The empty string contains no nonempty substring. -/
lemma strIncludes_toLower_empty {q : String} (h : q.data ≠ []) :
    strIncludes (toLowerStr "") q = false := by
  rw [strIncludes, decide_eq_false_iff_not]
  rintro ⟨s, t, hst⟩
  rw [show (toLowerStr "").data = [] from rfl] at hst
  simp only [List.append_eq_nil] at hst
  exact h hst.1.2

/-- C6: the search stage of the pipeline returns the category-filtered
set unchanged when the query is empty after trimming; otherwise it keeps
exactly the records for which the lowercased query is a substring of the
lowercased title, or of the lowercased url, or of some lowercased tag, or
of the lowercased description when a description is present. -/
theorem c6_search_matches_exactly (query : String) (l : List Bookmark) :
    (trimStr query = "" → searchFilter query l = l) ∧
    (trimStr query ≠ "" → ∀ b, b ∈ searchFilter query l ↔
      (b ∈ l ∧
        (strIncludes (toLowerStr b.title) (toLowerStr query) = true ∨
         strIncludes (toLowerStr b.url) (toLowerStr query) = true ∨
         (∃ t ∈ b.tags, strIncludes (toLowerStr t) (toLowerStr query) = true) ∨
         (∃ d, b.description = some d ∧
            strIncludes (toLowerStr d) (toLowerStr query) = true)))) := by
  constructor
  · intro hq
    simp [searchFilter, hq]
  · intro hq b
    have hq0 : query ≠ "" := by
      intro he
      apply hq
      rw [he]
      rfl
    have hqd : (toLowerStr query).data ≠ [] := by
      rw [show (toLowerStr query).data = query.data.map Char.toLower from rfl]
      simp only [ne_eq, List.map_eq_nil_iff]
      intro hnil
      exact hq0 (string_eq_empty_of_data hnil)
    rw [searchFilter, if_pos hq, List.mem_filter]
    refine and_congr_right fun _ => ?_
    rw [matchesQuery]
    cases hdesc : b.description with
    | none =>
      simp [hdesc, or_assoc]
    | some d =>
      by_cases hd0 : d = ""
      · subst hd0
        simp [hdesc, strIncludes_toLower_empty hqd, or_assoc]
      · simp [hdesc, hd0, or_assoc]

/-- Witness for C6, on the spec's example: query `"dev"` matches a record
through the tag `"devtools"`. -/
theorem c6_witness :
    trimStr "dev" ≠ "" ∧
    ((⟨"1", "https://a.com", "A", none, "Dev", ["devtools"], "", none, none, false, 100⟩ : Bookmark) ∈
        searchFilter "dev"
          [⟨"1", "https://a.com", "A", none, "Dev", ["devtools"], "", none, none, false, 100⟩] ↔
      ((⟨"1", "https://a.com", "A", none, "Dev", ["devtools"], "", none, none, false, 100⟩ : Bookmark) ∈
          [(⟨"1", "https://a.com", "A", none, "Dev", ["devtools"], "", none, none, false, 100⟩ : Bookmark)] ∧
        (strIncludes (toLowerStr "A") (toLowerStr "dev") = true ∨
         strIncludes (toLowerStr "https://a.com") (toLowerStr "dev") = true ∨
         (∃ t ∈ ["devtools"], strIncludes (toLowerStr t) (toLowerStr "dev") = true) ∨
         (∃ d, (none : Option String) = some d ∧
            strIncludes (toLowerStr d) (toLowerStr "dev") = true)))) :=
  ⟨by decide,
   (c6_search_matches_exactly "dev"
      [⟨"1", "https://a.com", "A", none, "Dev", ["devtools"], "", none, none, false, 100⟩]).2
     (by decide)
     ⟨"1", "https://a.com", "A", none, "Dev", ["devtools"], "", none, none, false, 100⟩⟩

/-- Two permutations of one another that are both pairwise-sorted by an
asymmetric relation are equal. -/
lemma eq_of_perm_of_pairwise_asymm {α : Type} {r : α → α → Prop}
    (hasymm : ∀ a b, r a b → ¬ r b a) :
    ∀ {l₁ l₂ : List α}, l₁.Perm l₂ → l₁.Pairwise r → l₂.Pairwise r → l₁ = l₂ := by
  intro l₁
  induction l₁ with
  | nil =>
    intro l₂ hp _ _
    exact (hp.symm.eq_nil).symm
  | cons a t ih =>
    intro l₂ hp h1 h2
    cases l₂ with
    | nil => exact absurd hp.eq_nil (by simp)
    | cons b t₂ =>
      have hab : a = b := by
        by_contra hne
        have hat : a ∈ b :: t₂ := hp.mem_iff.mp (List.mem_cons_self a t)
        have hat' : a ∈ t₂ := by
          cases hat with
          | head => exact absurd rfl hne
          | tail _ h => exact h
        have hba : r b a := (List.pairwise_cons.mp h2).1 a hat'
        have hbt : b ∈ a :: t := hp.symm.mem_iff.mp (List.mem_cons_self b t₂)
        have hbt' : b ∈ t := by
          cases hbt with
          | head => exact absurd rfl (fun hc => hne hc.symm)
          | tail _ h => exact h
        have harb : r a b := (List.pairwise_cons.mp h1).1 b hbt'
        exact hasymm a b harb hba
      subst hab
      have hpt : t.Perm t₂ := hp.cons_inv
      rw [ih hpt (List.pairwise_cons.mp h1).2 (List.pairwise_cons.mp h2).2]

/-- The `date-desc` comparator evaluated. -/
lemma sortLe_desc_eq (a b : Bookmark) :
    sortLe "date-desc" a b = decide (b.createdAt ≤ a.createdAt) := rfl

/-- The `date-asc` comparator evaluated. -/
lemma sortLe_asc_eq (a b : Bookmark) :
    sortLe "date-asc" a b = decide (a.createdAt ≤ b.createdAt) := rfl

/-- The `date-desc` comparator relation is transitive. -/
lemma sortLe_desc_trans (a b c : Bookmark) :
    sortLe "date-desc" a b → sortLe "date-desc" b c → sortLe "date-desc" a c := by
  simp only [sortLe_desc_eq, decide_eq_true_eq]
  omega

/-- The `date-desc` comparator relation is total. -/
lemma sortLe_desc_total (a b : Bookmark) :
    sortLe "date-desc" a b || sortLe "date-desc" b a := by
  simp only [sortLe_desc_eq, Bool.or_eq_true, decide_eq_true_eq]
  omega

/-- The `date-asc` comparator relation is transitive. -/
lemma sortLe_asc_trans (a b c : Bookmark) :
    sortLe "date-asc" a b → sortLe "date-asc" b c → sortLe "date-asc" a c := by
  simp only [sortLe_asc_eq, decide_eq_true_eq]
  omega

/-- The `date-asc` comparator relation is total. -/
lemma sortLe_asc_total (a b : Bookmark) :
    sortLe "date-asc" a b || sortLe "date-asc" b a := by
  simp only [sortLe_asc_eq, Bool.or_eq_true, decide_eq_true_eq]
  omega

/-- C7: on a list whose records have pairwise-distinct `createdAt`
values, the `date-desc` sort is exactly the order-reversal of the
`date-asc` sort; moreover `date-desc` places larger `createdAt` first
(each record's `createdAt` is at least every later one's) and `date-asc`
places smaller `createdAt` first. -/
theorem c7_date_desc_reverses_date_asc (l : List Bookmark)
    (hd : l.Pairwise (fun a b => a.createdAt ≠ b.createdAt)) :
    sortBookmarks "date-desc" l = (sortBookmarks "date-asc" l).reverse ∧
    (sortBookmarks "date-desc" l).Pairwise (fun a b => b.createdAt ≤ a.createdAt) ∧
    (sortBookmarks "date-asc" l).Pairwise (fun a b => a.createdAt ≤ b.createdAt) := by
  have hdesc_sorted : (sortBookmarks "date-desc" l).Pairwise
      (fun a b => b.createdAt ≤ a.createdAt) := by
    have h := List.sorted_mergeSort sortLe_desc_trans sortLe_desc_total l
    refine h.imp ?_
    intro a b hab
    rw [sortLe_desc_eq] at hab
    exact of_decide_eq_true hab
  have hasc_sorted : (sortBookmarks "date-asc" l).Pairwise
      (fun a b => a.createdAt ≤ b.createdAt) := by
    have h := List.sorted_mergeSort sortLe_asc_trans sortLe_asc_total l
    refine h.imp ?_
    intro a b hab
    rw [sortLe_asc_eq] at hab
    exact of_decide_eq_true hab
  refine ⟨?_, hdesc_sorted, hasc_sorted⟩
  have hdperm : (sortBookmarks "date-desc" l).Perm l := List.mergeSort_perm l _
  have haperm : (sortBookmarks "date-asc" l).Perm l := List.mergeSort_perm l _
  have hdne : (sortBookmarks "date-desc" l).Pairwise
      (fun a b => a.createdAt ≠ b.createdAt) :=
    (hdperm.pairwise_iff (fun h => Ne.symm h)).mpr hd
  have hane : (sortBookmarks "date-asc" l).Pairwise
      (fun a b => a.createdAt ≠ b.createdAt) :=
    (haperm.pairwise_iff (fun h => Ne.symm h)).mpr hd
  have hdstrict : (sortBookmarks "date-desc" l).Pairwise
      (fun a b => b.createdAt < a.createdAt) := by
    refine (hdesc_sorted.and hdne).imp ?_
    intro a b hab
    omega
  have hastrict : (sortBookmarks "date-asc" l).Pairwise
      (fun a b => a.createdAt < b.createdAt) := by
    refine (hasc_sorted.and hane).imp ?_
    intro a b hab
    omega
  have hrevstrict : ((sortBookmarks "date-asc" l).reverse).Pairwise
      (fun a b => b.createdAt < a.createdAt) :=
    List.pairwise_reverse.mpr hastrict
  have hperm : (sortBookmarks "date-desc" l).Perm ((sortBookmarks "date-asc" l).reverse) :=
    hdperm.trans (haperm.symm.trans (List.reverse_perm _).symm)
  exact eq_of_perm_of_pairwise_asymm (fun a b hab => Nat.lt_asymm hab)
    hperm hdstrict hrevstrict

/-- Witness for C7 on a concrete two-record collection with distinct
timestamps. -/
theorem c7_witness :
    sortBookmarks "date-desc"
        [⟨"1", "https://a.com", "A", none, "Dev", [], "", none, none, false, 100⟩,
         ⟨"2", "https://b.com", "B", none, "Dev", [], "", none, none, false, 200⟩] =
      (sortBookmarks "date-asc"
        [⟨"1", "https://a.com", "A", none, "Dev", [], "", none, none, false, 100⟩,
         ⟨"2", "https://b.com", "B", none, "Dev", [], "", none, none, false, 200⟩]).reverse ∧
    (sortBookmarks "date-desc"
        [⟨"1", "https://a.com", "A", none, "Dev", [], "", none, none, false, 100⟩,
         ⟨"2", "https://b.com", "B", none, "Dev", [], "", none, none, false, 200⟩]).Pairwise
      (fun a b => b.createdAt ≤ a.createdAt) ∧
    (sortBookmarks "date-asc"
        [⟨"1", "https://a.com", "A", none, "Dev", [], "", none, none, false, 100⟩,
         ⟨"2", "https://b.com", "B", none, "Dev", [], "", none, none, false, 200⟩]).Pairwise
      (fun a b => a.createdAt ≤ b.createdAt) :=
  c7_date_desc_reverses_date_asc _ (by decide)

/-- C9: `fetchMetadata` first normalizes the raw URL (prepending
`https://` exactly when the `http(s)://` prefix is missing); when the
external lookup fails and the normalized URL parses, it returns the
degraded partial draft carrying the normalized URL, the title fallback
(the caller-supplied draft title, or else the URL's host component) and
the favicon built from the favicon-by-domain template; and when even the
normalized URL is unparseable it signals the fatal invalid-URL condition
and updates nothing. -/
theorem c9_enrichment_failure_fallback (bookmarks : List Bookmark)
    (editingId : Option String) (prev : FormData) (url : String)
    (parseHost : String → Option String)
    (hurl : url ≠ "")
    (hdup : bookmarks.any (fun b => b.url == url && idDiffers b editingId) = false) :
    (hasHttpScheme url = false → normalizeUrl url = "https://" ++ url) ∧
    (hasHttpScheme url = true → normalizeUrl url = url) ∧
    (∀ h, parseHost (normalizeUrl url) = some h →
      fetchMetadata bookmarks editingId prev url .failure parseHost =
        .degraded { prev with
          url := normalizeUrl url,
          title := if prev.title != "" then prev.title else h,
          favicon := some (faviconTemplate (normalizeUrl url)) }) ∧
    (parseHost (normalizeUrl url) = none →
      fetchMetadata bookmarks editingId prev url .failure parseHost = .invalidUrl) := by
  refine ⟨?_, ?_, ?_, ?_⟩
  · intro h
    simp [normalizeUrl, h]
  · intro h
    simp [normalizeUrl, h]
  · intro h hp
    simp [fetchMetadata, hurl, hdup, hp]
  · intro hp
    simp [fetchMetadata, hurl, hdup, hp]

/-- A concrete stand-in for the platform URL parser in the C9 witness:
it resolves the host of `https://a.com` and rejects everything else. -/
def c9ParseHost (s : String) : Option String :=
  if s = "https://a.com" then some "a.com" else none

/-- Witness for C9: with an empty collection, a blank draft and the raw
URL `a.com`, a failing lookup yields the degraded draft with the
normalized URL, the host as title fallback, and the template favicon. -/
theorem c9_witness :
    fetchMetadata [] none ⟨"a.com", "", "", "Uncategorized", "", "", none, none⟩
        "a.com" .failure c9ParseHost =
      .degraded ⟨"https://a.com", "a.com", "", "Uncategorized", "", "", none,
        some "https://www.google.com/s2/favicons?domain=https://a.com&sz=64"⟩ := by
  have h := (c9_enrichment_failure_fallback [] none
      ⟨"a.com", "", "", "Uncategorized", "", "", none, none⟩ "a.com" c9ParseHost
      (by decide) (by decide)).2.2.1 "a.com" (by decide)
  exact h

end LinkVault
